import Mathlib

/-!
Verification development for the `baby_shark` narrow-band signed-distance
`Volume` module (`src/voxel/volume/mod.rs`).

The embedding models `f32` scalars as exact rationals (`ℚ`): every operation
the code performs on stored values (comparison, `abs`, `min`/`max`, addition,
subtraction, multiplication, division, `floor`, `ceil`, sign tests) is exact
on the inputs we reason about, so control flow and stored values coincide
with the source's on such inputs. IEEE artefacts (rounding, `-0.0`, `NaN`)
are outside the model.

The sparse hierarchical VDB grid itself is an external collaborator of this
module; we model a grid as its observable content: a finite association list
of active voxels (integer lattice coordinate, stored value) plus a total
background field carrying the sign information that flood fill installs.
Later insertions shadow earlier entries, which reproduces the overwrite
semantics of `VolumeGrid::insert`.
-/

/-- Integer lattice coordinate, the `Vec3i` of the source. -/
structure Vec3i where
  x : ℤ
  y : ℤ
  z : ℤ
deriving DecidableEq

/-- World-space coordinate, the `Vec3f` of the source (modelled over ℚ). -/
structure Vec3q where
  x : ℚ
  y : ℚ
  z : ℚ

/-- World position of a lattice point: `idx.cast() * voxel_size` in `from_fn`. -/
def worldPoint (voxel_size : ℚ) (idx : Vec3i) : Vec3q :=
  ⟨(idx.x : ℚ) * voxel_size, (idx.y : ℚ) * voxel_size, (idx.z : ℚ) * voxel_size⟩

/-- Sign of a stored scalar, as the codebase's `Sign` trait classifies it:
negative iff the sign bit is set; `0.0` counts as positive. -/
def sgnQ (v : ℚ) : ℚ :=
  if v < 0 then -1 else 1

/-- Squared Euclidean distance between two lattice points. -/
def sqDist (p q : Vec3i) : ℤ :=
  (p.x - q.x) * (p.x - q.x) + (p.y - q.y) * (p.y - q.y) + (p.z - q.z) * (p.z - q.z)

/-- Manhattan distance between two lattice points. -/
def l1Dist (p q : Vec3i) : ℤ :=
  |p.x - q.x| + |p.y - q.y| + |p.z - q.z|

/-- Lookup of the value stored at a coordinate in an association list of
active voxels; the most recent (front-most) entry wins. -/
def lookupVal : List (Vec3i × ℚ) → Vec3i → Option ℚ
  | [], _ => none
  | e :: rest, p => if e.1 = p then some e.2 else lookupVal rest p

/-- Entry of minimal squared Euclidean distance to `p` among the active
voxels (ties resolved towards the back of the list; the source's flood fill
does not specify a tie-breaking rule). -/
def nearestEntry : List (Vec3i × ℚ) → Vec3i → Option (Vec3i × ℚ)
  | [], _ => none
  | e :: rest, p =>
    match nearestEntry rest p with
    | none => some e
    | some b => if sqDist p e.1 < sqDist p b.1 then some e else some b

/-- Sign of the nearest active voxel, `+1` on an empty grid (everything is
outside when there is no surface). -/
def nearestSign (l : List (Vec3i × ℚ)) (p : Vec3i) : ℚ :=
  match nearestEntry l p with
  | some e => sgnQ e.2
  | none => 1

/-- A sparse SDF grid, observed as its active voxels plus the background
field. `bg` carries the per-voxel background value; it is the sentinel `+1`
on freshly built grids and holds the propagated signs after a flood fill. -/
structure Grid where
  active : List (Vec3i × ℚ)
  bg : Vec3i → ℚ

/-- `VolumeGrid::empty`: no active voxels; background not yet sign-classified
(sentinel `+1`, outside). -/
def Grid.empty : Grid :=
  ⟨[], fun _ => 1⟩

/-- `VolumeGrid::insert`: activates one voxel (overwriting by shadowing). -/
def Grid.insert (g : Grid) (p : Vec3i) (v : ℚ) : Grid :=
  ⟨(p, v) :: g.active, g.bg⟩

/-- Stored value at a coordinate, `none` on background. -/
def Grid.valueAt (g : Grid) (p : Vec3i) : Option ℚ :=
  lookupVal g.active p

/-- Total evaluation of the grid at a lattice point: the stored value on an
active voxel, the background field elsewhere. -/
def Grid.sample (g : Grid) (p : Vec3i) : ℚ :=
  (g.valueAt p).getD (g.bg p)

/-- Modelled from the spec: `VolumeGrid::flood_fill` (its implementation is
not under `src/`) propagates the nearest active voxel's sign — not its
magnitude — to every background voxel in place, so that afterwards every
voxel carries a definite inside/outside classification. Active voxels keep
their stored values; background voxels receive a unit value of the
propagated sign. -/
def Grid.floodFill (g : Grid) : Grid :=
  ⟨g.active, fun p => nearestSign g.active p⟩

/-- Per-voxel combination of two (flood-filled) grids with a binary rule
`op`: every position that is active in either operand stores the combined
value, and the background fields combine pointwise as well. -/
def combineWith (op : ℚ → ℚ → ℚ) (a b : Grid) : Grid :=
  ⟨(a.active.map Prod.fst ++ b.active.map Prod.fst).map
      (fun p => (p, op (a.sample p) (b.sample p))),
   fun p => op (a.bg p) (b.bg p)⟩

/-- Modelled from the spec: `VolumeGrid::union` (implementation not under
`src/`) keeps, per position, the lesser (more negative) signed value of the
two flood-filled operands. -/
def gridUnion (a b : Grid) : Grid :=
  combineWith (fun x y => min x y) a b

/-- Modelled from the spec: `VolumeGrid::intersect` (implementation not under
`src/`) keeps, per position, the greater signed value of the two
flood-filled operands. -/
def gridIntersect (a b : Grid) : Grid :=
  combineWith (fun x y => max x y) a b

/-- Modelled from the spec: `VolumeGrid::subtract` (implementation not under
`src/`) intersects `self` with the negation of `other`:
per position it keeps `max (a p) (-(b p))`. -/
def gridSubtract (a b : Grid) : Grid :=
  combineWith (fun x y => max x (-y)) a b

/-- Flood-filled sign seen at a lattice point: the sign of the stored value
on an active voxel, the propagated nearest sign on background. -/
def signAt (g : Grid) (p : Vec3i) : ℚ :=
  match lookupVal g.active p with
  | some v => sgnQ v
  | none => nearestSign g.active p

/-- The six face-adjacent neighbors of a lattice point. -/
def faceNeighbors (p : Vec3i) : List Vec3i :=
  [⟨p.x + 1, p.y, p.z⟩, ⟨p.x - 1, p.y, p.z⟩,
   ⟨p.x, p.y + 1, p.z⟩, ⟨p.x, p.y - 1, p.z⟩,
   ⟨p.x, p.y, p.z + 1⟩, ⟨p.x, p.y, p.z - 1⟩]

/-- Whether some face-adjacent neighbor carries the opposite sign (reading
background through the flood-filled sign), the sign-change test of the
band-trim step. -/
def hasOppositeSignNeighbor (g : Grid) (p : Vec3i) (v : ℚ) : Bool :=
  (faceNeighbors p).any (fun q => decide (signAt g q ≠ sgnQ v))

/-- Modelled from the spec: the `KeepSignChangeCubes` visitor (implementation
not under `src/`) copies into a freshly constructed output grid exactly the
active voxels that straddle the zero level set: a voxel is kept when some
face-adjacent neighbor has the opposite sign, or when its own magnitude is
below one `voxel_size`; everything else becomes background. -/
def keepSignChangeCubes (g : Grid) (voxel_size : ℚ) : Grid :=
  ⟨g.active.filter
      (fun e => hasOppositeSignNeighbor g e.1 e.2 || decide (|e.2| < voxel_size)),
   fun _ => 1⟩

/-- Consecutive integers: `n` values starting at `lo`. -/
def intRangeAux : ℤ → ℕ → List ℤ
  | _, 0 => []
  | lo, n + 1 => lo :: intRangeAux (lo + 1) n

/-- Integers from `lo` to `hi` inclusive (empty when `hi < lo`), the `lo..=hi`
range of the source. -/
def intRange (lo hi : ℤ) : List ℤ :=
  intRangeAux lo (hi + 1 - lo).toNat

/-- All lattice points of the cube of Chebyshev radius `r` around `c`. -/
def boxAround (c : Vec3i) (r : ℤ) : List Vec3i :=
  (intRange (-r) r).flatMap (fun dx =>
    (intRange (-r) r).flatMap (fun dy =>
      (intRange (-r) r).map (fun dz => ⟨c.x + dx, c.y + dy, c.z + dz⟩)))

/-- `set_sign`: gives `x` the sign of `d` (the sign of `0` is positive, as
for the `f32` sign bit of `+0.0`). -/
def setSign (x d : ℚ) : ℚ :=
  if d < 0 then -|x| else |x|

/-- Modelled from the spec: one chamfer candidate distance — the least
`|value| + h * l1(p, q)` over the active voxels `(q, value)`. The Fast
Sweeping engine's upwind update is not under `src/`; the Manhattan-metric
bound models its monotone distance propagation from the band. -/
def chamferVal (h : ℚ) : List (Vec3i × ℚ) → Vec3i → Option ℚ
  | [], _ => none
  | e :: rest, p =>
    match chamferVal h rest p with
    | none => some (|e.2| + h * ((l1Dist p e.1 : ℤ) : ℚ))
    | some b => some (min b (|e.2| + h * ((l1Dist p e.1 : ℤ) : ℚ)))

/-- Modelled from the spec: `FastSweeping::fast_sweep` (implementation not
under `src/`) reconstructs signed distances on background voxels near the
band while the input band acts as Dirichlet data: active voxels keep their
values; a background voxel within the truncation radius receives a
reconstructed distance of the propagated sign (modelled with the chamfer
bound above); a voxel whose minimal achievable magnitude exceeds the
extension distance stays inactive; an empty band is a no-op. -/
def fastSweep (h ext : ℚ) (g : Grid) : Grid :=
  ⟨g.active ++
      (g.active.flatMap (fun e => boxAround e.1 (max 0 ⌈|ext| / h⌉))).filterMap
        (fun p =>
          match lookupVal g.active p with
          | some _ => none
          | none =>
            match chamferVal h g.active p, nearestEntry g.active p with
            | some m, some b => if m ≤ |ext| then some (p, sgnQ b.2 * m) else none
            | _, _ => none),
   g.bg⟩

/-- Modelled from the spec: `ValueMutVisitor::from_fn` composed with
`visit_values_mut` (implementations not under `src/`) applies a caller
function to every active stored value, in place; background is untouched. -/
def mapValues (f : ℚ → ℚ) (g : Grid) : Grid :=
  ⟨g.active.map (fun e => (e.1, f e.2)), g.bg⟩

/-- The `Volume` facade: one grid plus a voxel size. -/
structure Volume where
  grid : Grid
  voxel_size : ℚ

/-- Lattice index of the box minimum: `(min / voxel_size).map(floor)`. -/
def latticeMin (voxel_size : ℚ) (mn : Vec3q) : Vec3i :=
  ⟨⌊mn.x / voxel_size⌋, ⌊mn.y / voxel_size⌋, ⌊mn.z / voxel_size⌋⟩

/-- Lattice index of the box maximum: `(max / voxel_size).map(ceil)`. -/
def latticeMax (voxel_size : ℚ) (mx : Vec3q) : Vec3i :=
  ⟨⌈mx.x / voxel_size⌉, ⌈mx.y / voxel_size⌉, ⌈mx.z / voxel_size⌉⟩

/-- The lattice points the `from_fn` triple loop enumerates:
`lmin.c..=lmax.c` in each component. -/
def latticePoints (lmin lmax : Vec3i) : List Vec3i :=
  (intRange lmin.x lmax.x).flatMap (fun x =>
    (intRange lmin.y lmax.y).flatMap (fun y =>
      (intRange lmin.z lmax.z).map (fun z => ⟨x, y, z⟩)))

/-- `Volume::from_fn`: evaluates `func` on each lattice point of the rounded
box and inserts the value unless its magnitude exceeds the band half-width
`(narrow_band_width + 1) * voxel_size`. -/
def Volume.from_fn (voxel_size : ℚ) (mn mx : Vec3q) (narrow_band_width : ℕ)
    (func : Vec3q → ℚ) : Volume :=
  ⟨(latticePoints (latticeMin voxel_size mn) (latticeMax voxel_size mx)).foldl
      (fun g idx =>
        if |func (worldPoint voxel_size idx)| >
            ((narrow_band_width + 1 : ℕ) : ℚ) * voxel_size then g
        else g.insert idx (func (worldPoint voxel_size idx)))
      Grid.empty,
   voxel_size⟩

/-- `Volume::union`: flood-fills both operand grids, then combines them with
the grid-level union; the result keeps `self`'s voxel size. -/
def Volume.union (a b : Volume) : Volume :=
  ⟨gridUnion a.grid.floodFill b.grid.floodFill, a.voxel_size⟩

/-- `Volume::intersect`: flood-fills both operand grids, then combines them
with the grid-level intersection; the result keeps `self`'s voxel size. -/
def Volume.intersect (a b : Volume) : Volume :=
  ⟨gridIntersect a.grid.floodFill b.grid.floodFill, a.voxel_size⟩

/-- `Volume::subtract`: flood-fills both operand grids, then combines them
with the grid-level subtraction; the result keeps `self`'s voxel size. -/
def Volume.subtract (a b : Volume) : Volume :=
  ⟨gridSubtract a.grid.floodFill b.grid.floodFill, a.voxel_size⟩

/-- `Volume::offset`: trims to the sign-change band, runs Fast Sweeping with
the sign-adjusted extension distance `|distance| + voxel_size + voxel_size`,
then subtracts `distance` from every active stored value. -/
def Volume.offset (v : Volume) (distance : ℚ) : Volume :=
  ⟨mapValues (fun x => x - distance)
      (fastSweep v.voxel_size
        (setSign (|distance| + v.voxel_size + v.voxel_size) distance)
        (keepSignChangeCubes v.grid v.voxel_size)),
   v.voxel_size⟩

/-! Lemmas about the association-list grid representation. -/

theorem lookupVal_append_left (l₁ l₂ : List (Vec3i × ℚ)) (p : Vec3i) (v : ℚ)
    (h : lookupVal l₁ p = some v) : lookupVal (l₁ ++ l₂) p = some v := by
  induction l₁ with
  | nil => simp [lookupVal] at h
  | cons e rest ih =>
    rw [List.cons_append]
    rw [lookupVal] at h ⊢
    by_cases he : e.1 = p
    · rwa [if_pos he] at h ⊢
    · rw [if_neg he] at h ⊢
      exact ih h

theorem lookupVal_map_apply (f : ℚ → ℚ) (l : List (Vec3i × ℚ)) (p : Vec3i) :
    lookupVal (l.map (fun e => (e.1, f e.2))) p = (lookupVal l p).map f := by
  induction l with
  | nil => simp [lookupVal]
  | cons e rest ih =>
    rw [List.map_cons, lookupVal, lookupVal]
    by_cases he : e.1 = p
    · simp [he]
    · simp only [he, if_neg, ite_false]
      exact ih

theorem lookupVal_filter_some (pr : Vec3i × ℚ → Bool) (l : List (Vec3i × ℚ)) (p : Vec3i)
    (v : ℚ) (h : lookupVal (l.filter pr) p = some v) : pr (p, v) = true := by
  induction l with
  | nil => simp [lookupVal] at h
  | cons e rest ih =>
    rw [List.filter_cons] at h
    by_cases hpr : pr e
    · rw [if_pos hpr, lookupVal] at h
      by_cases he : e.1 = p
      · rw [if_pos he] at h
        have hev : e = (p, v) := by
          obtain ⟨e1, e2⟩ := e
          simp_all
        rwa [hev] at hpr
      · rw [if_neg he] at h
        exact ih h
    · rw [if_neg (by simpa using hpr)] at h
      exact ih h

theorem lookupVal_keys_map (val : Vec3i → ℚ) (keys : List Vec3i) (p : Vec3i) :
    lookupVal (keys.map (fun q => (q, val q))) p =
      if p ∈ keys then some (val p) else none := by
  induction keys with
  | nil => simp [lookupVal]
  | cons k ks ih =>
    rw [List.map_cons, lookupVal]
    by_cases hk : k = p
    · subst hk
      simp
    · rw [if_neg hk, ih]
      by_cases hp : p ∈ ks
      · rw [if_pos hp, if_pos (List.mem_cons_of_mem k hp)]
      · rw [if_neg hp, if_neg ?_]
        intro hmem
        rcases List.mem_cons.mp hmem with h | h
        · exact hk h.symm
        · exact hp h

theorem lookupVal_eq_none (l : List (Vec3i × ℚ)) (p : Vec3i)
    (h : ∀ e ∈ l, e.1 ≠ p) : lookupVal l p = none := by
  induction l with
  | nil => rfl
  | cons e rest ih =>
    rw [lookupVal, if_neg (h e (List.mem_cons_self e rest))]
    exact ih (fun e' he' => h e' (List.mem_cons_of_mem e he'))

theorem valueAt_insert (g : Grid) (q p : Vec3i) (v : ℚ) :
    (g.insert q v).valueAt p = if q = p then some v else g.valueAt p := rfl

theorem valueAt_mapValues (f : ℚ → ℚ) (g : Grid) (p : Vec3i) :
    (mapValues f g).valueAt p = (g.valueAt p).map f :=
  lookupVal_map_apply f g.active p

theorem valueAt_fastSweep_of_active (h ext : ℚ) (g : Grid) (p : Vec3i) (v : ℚ)
    (hv : g.valueAt p = some v) : (fastSweep h ext g).valueAt p = some v :=
  lookupVal_append_left _ _ _ _ hv

/-! Lemmas about the integer ranges enumerated by `from_fn`. -/

theorem mem_intRangeAux (n : ℕ) : ∀ (lo a : ℤ),
    a ∈ intRangeAux lo n ↔ lo ≤ a ∧ a < lo + n := by
  induction n with
  | zero => intro lo a; simp [intRangeAux]
  | succ m ih =>
    intro lo a
    rw [intRangeAux, List.mem_cons, ih]
    omega

theorem mem_intRange (lo hi a : ℤ) : a ∈ intRange lo hi ↔ lo ≤ a ∧ a ≤ hi := by
  rw [intRange, mem_intRangeAux]
  omega

theorem mem_latticePoints (lmin lmax p : Vec3i) :
    p ∈ latticePoints lmin lmax ↔
      (lmin.x ≤ p.x ∧ p.x ≤ lmax.x) ∧ (lmin.y ≤ p.y ∧ p.y ≤ lmax.y) ∧
        (lmin.z ≤ p.z ∧ p.z ≤ lmax.z) := by
  obtain ⟨px, py, pz⟩ := p
  simp only [latticePoints, List.mem_flatMap, List.mem_map, mem_intRange, Vec3i.mk.injEq]
  constructor
  · rintro ⟨x, hx, y, hy, z, hz, rfl, rfl, rfl⟩
    exact ⟨hx, hy, hz⟩
  · rintro ⟨hx, hy, hz⟩
    exact ⟨px, hx, py, hy, pz, hz, rfl, rfl, rfl⟩

/-! The insertion loop of `from_fn`, characterized. -/

theorem valueAt_foldl_band (f : Vec3i → ℚ) (β : ℚ) :
    ∀ (L : List Vec3i) (g : Grid) (p : Vec3i),
      (L.foldl (fun g idx => if |f idx| > β then g else g.insert idx (f idx)) g).valueAt p =
        if p ∈ L ∧ |f p| ≤ β then some (f p) else g.valueAt p := by
  intro L
  induction L with
  | nil => intro g p; simp
  | cons idx L ih =>
    intro g p
    rw [List.foldl_cons, ih]
    by_cases hp : p ∈ L ∧ |f p| ≤ β
    · rw [if_pos hp, if_pos ⟨List.mem_cons_of_mem idx hp.1, hp.2⟩]
    · rw [if_neg hp]
      by_cases hkeep : |f idx| > β
      · rw [if_pos hkeep]
        rw [if_neg ?_]
        rintro ⟨h1, h2⟩
        rcases List.mem_cons.mp h1 with h | h
        · subst h; exact absurd h2 (not_le.mpr hkeep)
        · exact hp ⟨h, h2⟩
      · rw [if_neg hkeep, valueAt_insert]
        by_cases hpi : idx = p
        · subst hpi
          rw [if_pos rfl, if_pos ⟨List.mem_cons_self idx L, le_of_not_lt hkeep⟩]
        · rw [if_neg hpi, if_neg ?_]
          rintro ⟨h1, h2⟩
          rcases List.mem_cons.mp h1 with h | h
          · exact hpi h.symm
          · exact hp ⟨h, h2⟩

theorem from_fn_valueAt (vs : ℚ) (mn mx : Vec3q) (nbw : ℕ) (func : Vec3q → ℚ) (p : Vec3i) :
    (Volume.from_fn vs mn mx nbw func).grid.valueAt p =
      if p ∈ latticePoints (latticeMin vs mn) (latticeMax vs mx) ∧
          |func (worldPoint vs p)| ≤ ((nbw + 1 : ℕ) : ℚ) * vs
      then some (func (worldPoint vs p)) else none := by
  have h := valueAt_foldl_band (fun idx => func (worldPoint vs idx))
      (((nbw + 1 : ℕ) : ℚ) * vs)
      (latticePoints (latticeMin vs mn) (latticeMax vs mx)) Grid.empty p
  simp only [Volume.from_fn] at *
  rw [h]
  by_cases hc : p ∈ latticePoints (latticeMin vs mn) (latticeMax vs mx) ∧
      |func (worldPoint vs p)| ≤ ((nbw + 1 : ℕ) : ℚ) * vs
  · rw [if_pos hc, if_pos hc]
  · rw [if_neg hc, if_neg hc]
    rfl

/-! Pointwise behavior of the grid-level combine. -/

theorem sample_combineWith (op : ℚ → ℚ → ℚ) (a b : Grid) (p : Vec3i) :
    (combineWith op a b).sample p = op (a.sample p) (b.sample p) := by
  have hkeys := lookupVal_keys_map (fun q => op (a.sample q) (b.sample q))
      (a.active.map Prod.fst ++ b.active.map Prod.fst) p
  have heq : (combineWith op a b).sample p =
      (lookupVal ((a.active.map Prod.fst ++ b.active.map Prod.fst).map
        (fun q => (q, op (a.sample q) (b.sample q)))) p).getD
        (op (a.bg p) (b.bg p)) := rfl
  by_cases hp : p ∈ a.active.map Prod.fst ++ b.active.map Prod.fst
  · rw [heq, hkeys, if_pos hp, Option.getD_some]
  · have ha : lookupVal a.active p = none := by
      apply lookupVal_eq_none
      intro e he heq'
      exact hp (List.mem_append_left _ (List.mem_map.mpr ⟨e, he, heq'⟩))
    have hb : lookupVal b.active p = none := by
      apply lookupVal_eq_none
      intro e he heq'
      exact hp (List.mem_append_right _ (List.mem_map.mpr ⟨e, he, heq'⟩))
    rw [heq, hkeys, if_neg hp, Option.getD_none]
    have ha' : a.sample p = a.bg p := by
      simp only [Grid.sample, Grid.valueAt, ha, Option.getD_none]
    have hb' : b.sample p = b.bg p := by
      simp only [Grid.sample, Grid.valueAt, hb, Option.getD_none]
    rw [ha', hb']

/-! Rounding-coverage facts used for the sampled box. -/

theorem mul_floor_div_le (vs a : ℚ) (hvs : 0 < vs) : vs * ((⌊a / vs⌋ : ℤ) : ℚ) ≤ a := by
  have h := Int.floor_le (a / vs)
  calc vs * ((⌊a / vs⌋ : ℤ) : ℚ) ≤ vs * (a / vs) :=
        mul_le_mul_of_nonneg_left h (le_of_lt hvs)
    _ = a := by field_simp

theorem le_mul_ceil_div (vs a : ℚ) (hvs : 0 < vs) : a ≤ vs * ((⌈a / vs⌉ : ℤ) : ℚ) := by
  have h := Int.le_ceil (a / vs)
  calc a = vs * (a / vs) := by field_simp
    _ ≤ vs * ((⌈a / vs⌉ : ℤ) : ℚ) := mul_le_mul_of_nonneg_left h (le_of_lt hvs)

/-! Claim theorems. -/

/-- C1: for Volumes of equal voxel size, each Boolean operation flood-fills
both operand grids and combines per voxel: at every lattice position the
union equals the lesser signed value `min (A p) (B p)`, the intersection the
greater `max (A p) (B p)`, and the subtraction `max (A p) (-(B p))`, where
`A p`, `B p` are the flood-filled operand values. -/
theorem boolean_ops_pointwise (A B : Volume) (hvs : A.voxel_size = B.voxel_size) (p : Vec3i) :
    (A.union B).grid.sample p =
      min (A.grid.floodFill.sample p) (B.grid.floodFill.sample p) ∧
    (A.intersect B).grid.sample p =
      max (A.grid.floodFill.sample p) (B.grid.floodFill.sample p) ∧
    (A.subtract B).grid.sample p =
      max (A.grid.floodFill.sample p) (-(B.grid.floodFill.sample p)) := by
  refine ⟨?_, ?_, ?_⟩
  · exact sample_combineWith (fun x y => min x y) A.grid.floodFill B.grid.floodFill p
  · exact sample_combineWith (fun x y => max x y) A.grid.floodFill B.grid.floodFill p
  · exact sample_combineWith (fun x y => max x (-y)) A.grid.floodFill B.grid.floodFill p

/-- C1 witness: a concrete evaluation of the union identity at one point. -/
theorem boolean_ops_pointwise_witness :
    (Volume.mk ⟨[(⟨0, 0, 0⟩, -1)], fun _ => 1⟩ 1).voxel_size =
        (Volume.mk ⟨[(⟨1, 0, 0⟩, 2)], fun _ => 1⟩ 1).voxel_size ∧
    ((Volume.mk ⟨[(⟨0, 0, 0⟩, -1)], fun _ => 1⟩ 1).union
        (Volume.mk ⟨[(⟨1, 0, 0⟩, 2)], fun _ => 1⟩ 1)).grid.sample ⟨0, 0, 0⟩ =
      min ((Volume.mk ⟨[(⟨0, 0, 0⟩, -1)], fun _ => 1⟩ 1).grid.floodFill.sample ⟨0, 0, 0⟩)
        ((Volume.mk ⟨[(⟨1, 0, 0⟩, 2)], fun _ => 1⟩ 1).grid.floodFill.sample ⟨0, 0, 0⟩) :=
  ⟨rfl, (boolean_ops_pointwise (Volume.mk ⟨[(⟨0, 0, 0⟩, -1)], fun _ => 1⟩ 1)
    (Volume.mk ⟨[(⟨1, 0, 0⟩, 2)], fun _ => 1⟩ 1) rfl ⟨0, 0, 0⟩).1⟩

/-- C2: `offset` performs exactly the three steps in order: trim to the
sign-change band, Fast Sweeping with the sign-adjusted extension distance
`|d| + 2 * voxel_size`, then subtraction of `d` from every active stored
value; the voxel size is kept. -/
theorem offset_trim_extend_shift (v : Volume) (d : ℚ) :
    v.offset d =
      ⟨mapValues (fun x => x - d)
          (fastSweep v.voxel_size (setSign (|d| + 2 * v.voxel_size) d)
            (keepSignChangeCubes v.grid v.voxel_size)),
       v.voxel_size⟩ := by
  have h2 : |d| + v.voxel_size + v.voxel_size = |d| + 2 * v.voxel_size := by ring
  unfold Volume.offset
  rw [h2]

/-- C3 counterexample: Boolean operations on operands with different voxel
sizes are not rejected — the call goes through and silently produces a
combined Volume carrying `self`'s voxel size. -/
theorem mismatched_voxel_sizes_silently_combined :
    (Volume.mk ⟨[(⟨0, 0, 0⟩, -1)], fun _ => 1⟩ 1).voxel_size ≠
        (Volume.mk ⟨[], fun _ => 1⟩ 2).voxel_size ∧
    ((Volume.mk ⟨[(⟨0, 0, 0⟩, -1)], fun _ => 1⟩ 1).union
        (Volume.mk ⟨[], fun _ => 1⟩ 2)).voxel_size = 1 ∧
    ((Volume.mk ⟨[(⟨0, 0, 0⟩, -1)], fun _ => 1⟩ 1).union
        (Volume.mk ⟨[], fun _ => 1⟩ 2)).grid.sample ⟨0, 0, 0⟩ = -1 := by
  refine ⟨by norm_num, rfl, ?_⟩
  norm_num [Volume.union, gridUnion, combineWith, Grid.sample, Grid.valueAt, Grid.floodFill,
    lookupVal, nearestSign, nearestEntry, sgnQ, min_def]

/-- C3 amended: the Boolean operations perform no voxel-size check; operands
with different voxel sizes are combined on the shared integer lattice all the
same, the result taking `self`'s voxel size. -/
theorem boolean_ops_no_voxel_size_check (A B : Volume) (h : A.voxel_size ≠ B.voxel_size) :
    A.union B = ⟨gridUnion A.grid.floodFill B.grid.floodFill, A.voxel_size⟩ ∧
    A.intersect B = ⟨gridIntersect A.grid.floodFill B.grid.floodFill, A.voxel_size⟩ ∧
    A.subtract B = ⟨gridSubtract A.grid.floodFill B.grid.floodFill, A.voxel_size⟩ :=
  ⟨rfl, rfl, rfl⟩

/-- C3 amended witness: a concrete mismatched pair is combined unchecked. -/
theorem boolean_ops_no_voxel_size_check_witness :
    (Volume.mk Grid.empty 1).voxel_size ≠ (Volume.mk Grid.empty 2).voxel_size ∧
    (Volume.mk Grid.empty 1).union (Volume.mk Grid.empty 2) =
      ⟨gridUnion (Volume.mk Grid.empty 1).grid.floodFill
          (Volume.mk Grid.empty 2).grid.floodFill, 1⟩ :=
  ⟨by norm_num, (boolean_ops_no_voxel_size_check _ _ (by norm_num)).1⟩

/-- C4: inside the sampled box, `from_fn` stores `func`'s value exactly when
its magnitude is within the band `(narrow_band_width + 1) * voxel_size`, and
leaves the point as background otherwise. -/
theorem from_fn_band_membership (vs : ℚ) (mn mx : Vec3q) (nbw : ℕ) (func : Vec3q → ℚ)
    (p : Vec3i) (h : p ∈ latticePoints (latticeMin vs mn) (latticeMax vs mx)) :
    (Volume.from_fn vs mn mx nbw func).grid.valueAt p =
      if |func (worldPoint vs p)| ≤ ((nbw + 1 : ℕ) : ℚ) * vs
      then some (func (worldPoint vs p)) else none := by
  rw [from_fn_valueAt]
  by_cases hb : |func (worldPoint vs p)| ≤ ((nbw + 1 : ℕ) : ℚ) * vs
  · rw [if_pos ⟨h, hb⟩, if_pos hb]
  · rw [if_neg (fun hc => hb hc.2), if_neg hb]

/-- C4 witness: a concrete in-box, in-band point is stored. -/
theorem from_fn_band_membership_witness :
    (⟨0, 0, 0⟩ : Vec3i) ∈ latticePoints (latticeMin 1 ⟨0, 0, 0⟩) (latticeMax 1 ⟨0, 0, 0⟩) ∧
    (Volume.from_fn 1 ⟨0, 0, 0⟩ ⟨0, 0, 0⟩ 0 (fun _ => 0)).grid.valueAt ⟨0, 0, 0⟩ = some 0 := by
  have hm : (⟨0, 0, 0⟩ : Vec3i) ∈
      latticePoints (latticeMin 1 ⟨0, 0, 0⟩) (latticeMax 1 ⟨0, 0, 0⟩) := by
    norm_num [latticePoints, latticeMin, latticeMax, intRange, intRangeAux]
  refine ⟨hm, ?_⟩
  rw [from_fn_band_membership 1 ⟨0, 0, 0⟩ ⟨0, 0, 0⟩ 0 (fun _ => 0) ⟨0, 0, 0⟩ hm]
  norm_num

/-- C5: with positive voxel size, the set of lattice points `from_fn`
enumerates is exactly the outward-rounded index box (floor of `min/h`, ceil
of `max/h`, bounds inclusive); the world extent of that index box covers the
requested box; and nothing outside it is ever stored. -/
theorem from_fn_sampling_box (vs : ℚ) (mn mx : Vec3q) (hvs : 0 < vs) :
    (∀ p : Vec3i,
        p ∈ latticePoints (latticeMin vs mn) (latticeMax vs mx) ↔
          (⌊mn.x / vs⌋ ≤ p.x ∧ p.x ≤ ⌈mx.x / vs⌉) ∧
          (⌊mn.y / vs⌋ ≤ p.y ∧ p.y ≤ ⌈mx.y / vs⌉) ∧
          (⌊mn.z / vs⌋ ≤ p.z ∧ p.z ≤ ⌈mx.z / vs⌉)) ∧
    (vs * (((latticeMin vs mn).x : ℤ) : ℚ) ≤ mn.x ∧
     vs * (((latticeMin vs mn).y : ℤ) : ℚ) ≤ mn.y ∧
     vs * (((latticeMin vs mn).z : ℤ) : ℚ) ≤ mn.z ∧
     mx.x ≤ vs * (((latticeMax vs mx).x : ℤ) : ℚ) ∧
     mx.y ≤ vs * (((latticeMax vs mx).y : ℤ) : ℚ) ∧
     mx.z ≤ vs * (((latticeMax vs mx).z : ℤ) : ℚ)) ∧
    (∀ (nbw : ℕ) (func : Vec3q → ℚ) (p : Vec3i),
        p ∉ latticePoints (latticeMin vs mn) (latticeMax vs mx) →
        (Volume.from_fn vs mn mx nbw func).grid.valueAt p = none) := by
  refine ⟨fun p => ?_, ?_, fun nbw func p hp => ?_⟩
  · rw [mem_latticePoints]
    exact Iff.rfl
  · exact ⟨mul_floor_div_le vs mn.x hvs, mul_floor_div_le vs mn.y hvs,
      mul_floor_div_le vs mn.z hvs, le_mul_ceil_div vs mx.x hvs,
      le_mul_ceil_div vs mx.y hvs, le_mul_ceil_div vs mx.z hvs⟩
  · rw [from_fn_valueAt, if_neg (fun hc => hp hc.1)]

/-- C5 witness: the coverage inequality at a concrete positive voxel size. -/
theorem from_fn_sampling_box_witness :
    (0 : ℚ) < 1 ∧ (1 : ℚ) * (((latticeMin 1 ⟨0, 0, 0⟩).x : ℤ) : ℚ) ≤ (0 : ℚ) :=
  ⟨by norm_num, (from_fn_sampling_box 1 ⟨0, 0, 0⟩ ⟨1, 1, 1⟩ (by norm_num)).2.1.1⟩

/-- C6: offsetting by zero is a no-op up to re-trimming: every voxel of the
sign-change band retained by the trim step keeps exactly its original stored
value in `offset 0` (the shift subtracts zero and Fast Sweeping treats the
band as Dirichlet data), the retained voxels are precisely cells straddling
the zero level set (opposite-signed neighbor or sub-voxel magnitude), and
the voxel size is unchanged. -/
theorem offset_zero_preserves_band (v : Volume) (p : Vec3i) (val : ℚ)
    (h : (keepSignChangeCubes v.grid v.voxel_size).valueAt p = some val) :
    (v.offset 0).grid.valueAt p = some val ∧
    (hasOppositeSignNeighbor v.grid p val = true ∨ |val| < v.voxel_size) ∧
    (v.offset 0).voxel_size = v.voxel_size := by
  refine ⟨?_, ?_, rfl⟩
  · have hf : (fastSweep v.voxel_size
        (setSign (|(0 : ℚ)| + v.voxel_size + v.voxel_size) 0)
        (keepSignChangeCubes v.grid v.voxel_size)).valueAt p = some val :=
      valueAt_fastSweep_of_active _ _ _ _ _ h
    have hm := valueAt_mapValues (fun x => x - 0)
        (fastSweep v.voxel_size (setSign (|(0 : ℚ)| + v.voxel_size + v.voxel_size) 0)
          (keepSignChangeCubes v.grid v.voxel_size)) p
    rw [hf] at hm
    show (mapValues (fun x => x - 0)
        (fastSweep v.voxel_size (setSign (|(0 : ℚ)| + v.voxel_size + v.voxel_size) 0)
          (keepSignChangeCubes v.grid v.voxel_size))).valueAt p = some val
    rw [hm]
    simp
  · have hpr := lookupVal_filter_some
        (fun e => hasOppositeSignNeighbor v.grid e.1 e.2 || decide (|e.2| < v.voxel_size))
        v.grid.active p val h
    rcases Bool.or_eq_true_iff.mp hpr with h1 | h1
    · exact Or.inl h1
    · exact Or.inr (of_decide_eq_true h1)

/-- C6 witness: a two-voxel band across the surface, preserved by a zero
offset. -/
theorem offset_zero_preserves_band_witness :
    (keepSignChangeCubes (Volume.mk ⟨[(⟨0, 0, 0⟩, -1), (⟨1, 0, 0⟩, 1)], fun _ => 1⟩ 1).grid
        (Volume.mk ⟨[(⟨0, 0, 0⟩, -1), (⟨1, 0, 0⟩, 1)], fun _ => 1⟩ 1).voxel_size).valueAt
        ⟨0, 0, 0⟩ = some (-1) ∧
    ((Volume.mk ⟨[(⟨0, 0, 0⟩, -1), (⟨1, 0, 0⟩, 1)], fun _ => 1⟩ 1).offset 0).grid.valueAt
        ⟨0, 0, 0⟩ = some (-1) := by
  have hband : (keepSignChangeCubes
      (Volume.mk ⟨[(⟨0, 0, 0⟩, -1), (⟨1, 0, 0⟩, 1)], fun _ => 1⟩ 1).grid
      (Volume.mk ⟨[(⟨0, 0, 0⟩, -1), (⟨1, 0, 0⟩, 1)], fun _ => 1⟩ 1).voxel_size).valueAt
      ⟨0, 0, 0⟩ = some (-1) := by decide
  exact ⟨hband, (offset_zero_preserves_band _ ⟨0, 0, 0⟩ (-1) hband).1⟩

/-- C7 counterexample: `from_fn` with `voxel_size = -1` is not rejected — it
returns a Volume whose voxel size violates the `voxel_size > 0` invariant. -/
theorem from_fn_accepts_nonpositive_voxel_size :
    (Volume.from_fn (-1) ⟨0, 0, 0⟩ ⟨0, 0, 0⟩ 0 (fun _ => 0)).voxel_size = -1 ∧
    (Volume.from_fn (-1) ⟨0, 0, 0⟩ ⟨0, 0, 0⟩ 0 (fun _ => 0)).voxel_size ≤ 0 := by
  constructor
  · rfl
  · show (-1 : ℚ) ≤ 0
    norm_num

/-- C7 amended: `from_fn` performs no validation of `voxel_size`; it returns
a Volume carrying the given voxel size even when it is negative, in which
case the band threshold is negative and no voxel is ever inserted. -/
theorem from_fn_no_voxel_size_validation (vs : ℚ) (mn mx : Vec3q) (nbw : ℕ)
    (func : Vec3q → ℚ) (h : vs < 0) :
    (Volume.from_fn vs mn mx nbw func).voxel_size = vs ∧
    ∀ p, (Volume.from_fn vs mn mx nbw func).grid.valueAt p = none := by
  refine ⟨rfl, fun p => ?_⟩
  rw [from_fn_valueAt]
  have hpos : (0 : ℚ) < ((nbw + 1 : ℕ) : ℚ) := by positivity
  have hneg : ((nbw + 1 : ℕ) : ℚ) * vs < 0 := mul_neg_of_pos_of_neg hpos h
  rw [if_neg]
  rintro ⟨-, habs⟩
  have := abs_nonneg (func (worldPoint vs p))
  linarith

/-- C7 amended witness: concrete negative voxel size, nothing stored. -/
theorem from_fn_no_voxel_size_validation_witness :
    (-1 : ℚ) < 0 ∧
    (Volume.from_fn (-1) ⟨0, 0, 0⟩ ⟨0, 0, 0⟩ 0 (fun _ => 0)).grid.valueAt ⟨5, 5, 5⟩ = none :=
  ⟨by norm_num,
    (from_fn_no_voxel_size_validation (-1) ⟨0, 0, 0⟩ ⟨0, 0, 0⟩ 0 (fun _ => 0)
      (by norm_num)).2 ⟨5, 5, 5⟩⟩

/-- C8: when some component of the rounded lattice minimum exceeds the
corresponding rounded maximum, the loop body never runs: `from_fn` returns a
valid Volume with an empty grid, not an error. -/
theorem from_fn_inverted_box_empty (vs : ℚ) (mn mx : Vec3q) (nbw : ℕ) (func : Vec3q → ℚ)
    (h : (latticeMax vs mx).x < (latticeMin vs mn).x ∨
         (latticeMax vs mx).y < (latticeMin vs mn).y ∨
         (latticeMax vs mx).z < (latticeMin vs mn).z) :
    (Volume.from_fn vs mn mx nbw func).grid.active = [] ∧
    (Volume.from_fn vs mn mx nbw func).voxel_size = vs := by
  have hnil : latticePoints (latticeMin vs mn) (latticeMax vs mx) = [] := by
    apply List.eq_nil_iff_forall_not_mem.mpr
    intro p hp
    rw [mem_latticePoints] at hp
    rcases h with h | h | h <;> omega
  constructor
  · show ((latticePoints (latticeMin vs mn) (latticeMax vs mx)).foldl _ Grid.empty).active = []
    rw [hnil, List.foldl_nil]
    rfl
  · rfl

/-- C8 witness: a concrete inverted box yields the empty grid. -/
theorem from_fn_inverted_box_empty_witness :
    (latticeMax 1 ⟨0, 0, 0⟩).x < (latticeMin 1 ⟨1, 1, 1⟩).x ∧
    (Volume.from_fn 1 ⟨1, 1, 1⟩ ⟨0, 0, 0⟩ 0 (fun _ => 0)).grid.active = [] := by
  have hlt : (latticeMax 1 ⟨0, 0, 0⟩).x < (latticeMin 1 ⟨1, 1, 1⟩).x := by
    norm_num [latticeMin, latticeMax]
  exact ⟨hlt, (from_fn_inverted_box_empty 1 ⟨1, 1, 1⟩ ⟨0, 0, 0⟩ 0 (fun _ => 0)
    (Or.inl hlt)).1⟩

/-- C9: union, intersect, subtract and offset all return a Volume whose
voxel size equals `self`'s, unchanged. -/
theorem ops_preserve_voxel_size (A B : Volume) (d : ℚ) :
    (A.union B).voxel_size = A.voxel_size ∧
    (A.intersect B).voxel_size = A.voxel_size ∧
    (A.subtract B).voxel_size = A.voxel_size ∧
    (A.offset d).voxel_size = A.voxel_size :=
  ⟨rfl, rfl, rfl, rfl⟩

/-- C10: the band test of `from_fn` skips only on strict excess: a lattice
point whose value's magnitude equals the band half-width exactly is inserted
with that exact value, unclamped. -/
theorem from_fn_band_boundary_inserted (vs : ℚ) (mn mx : Vec3q) (nbw : ℕ)
    (func : Vec3q → ℚ) (p : Vec3i)
    (h1 : p ∈ latticePoints (latticeMin vs mn) (latticeMax vs mx))
    (h2 : |func (worldPoint vs p)| = ((nbw + 1 : ℕ) : ℚ) * vs) :
    (Volume.from_fn vs mn mx nbw func).grid.valueAt p = some (func (worldPoint vs p)) := by
  rw [from_fn_valueAt, if_pos ⟨h1, le_of_eq h2⟩]

/-- C10 witness: a value sitting exactly on the band boundary is stored. -/
theorem from_fn_band_boundary_inserted_witness :
    ((⟨0, 0, 0⟩ : Vec3i) ∈ latticePoints (latticeMin 1 ⟨0, 0, 0⟩) (latticeMax 1 ⟨0, 0, 0⟩) ∧
      |(fun _ : Vec3q => (1 : ℚ)) (worldPoint 1 ⟨0, 0, 0⟩)| = ((0 + 1 : ℕ) : ℚ) * 1) ∧
    (Volume.from_fn 1 ⟨0, 0, 0⟩ ⟨0, 0, 0⟩ 0 (fun _ => 1)).grid.valueAt ⟨0, 0, 0⟩ = some 1 := by
  have hm : (⟨0, 0, 0⟩ : Vec3i) ∈
      latticePoints (latticeMin 1 ⟨0, 0, 0⟩) (latticeMax 1 ⟨0, 0, 0⟩) := by
    norm_num [latticePoints, latticeMin, latticeMax, intRange, intRangeAux]
  have hv : |(fun _ : Vec3q => (1 : ℚ)) (worldPoint 1 ⟨0, 0, 0⟩)| = ((0 + 1 : ℕ) : ℚ) * 1 := by
    norm_num
  exact ⟨⟨hm, hv⟩,
    from_fn_band_boundary_inserted 1 ⟨0, 0, 0⟩ ⟨0, 0, 0⟩ 0 (fun _ => 1) ⟨0, 0, 0⟩ hm hv⟩
